import Mathlib

/-!
# `rscc/csrc/loadtest.c` : pass-through copy and hexadecimal dump

A shallow embedding of `main` of `loadtest.c`.

* Bytes are natural numbers below 256; standard output is the list of bytes
  written to it, in order.
* The operating system is modelled by the results of the system calls the
  program makes: the outcome of every `read`, the value returned by `open`,
  `close` and `write`.
* `int` is a 32-bit two's-complement integer (`wrapInt`), `%x` prints its
  argument converted to `unsigned int` (`toUnsigned`).
* Whether plain `char` is signed is fixed by the target ABI, not by the source;
  it is the parameter `charSigned` (`true` under the x86-64 System V ABI).
* The program never calls `setlocale`, so `isprint` is the one of the "C"
  locale.
-/

namespace Loadtest

/-! ## Machine integers and `printf` conversions -/

/-- The constant `enum{BUF_SIZE = 16}`. -/
def BUF_SIZE : Nat := 16

/-- File descriptor `STDIN_FILENO`. -/
def STDIN_FILENO : Int := 0

/-- File descriptor `STDOUT_FILENO`. -/
def STDOUT_FILENO : Int := 1

/-- Reduction of an integer to the range of a 32-bit two's-complement `int`. -/
def wrapInt (x : Int) : Int := (x + 2147483648) % 4294967296 - 2147483648

/-- Conversion of an `int` to `unsigned int`, as done by the `%x` conversion. -/
def toUnsigned (x : Int) : Nat := (x % 4294967296).toNat

/-- Value of the `char` object holding byte `b`, after promotion to `int`:
    sign-extended when plain `char` is signed. -/
def charToInt (charSigned : Bool) (b : Nat) : Int :=
  if charSigned && decide (128 ≤ b) then (b : Int) - 256 else (b : Int)

/-- Conversion of an `int` to `unsigned char`, as done by the `%c` conversion. -/
def toUChar (c : Int) : Nat := (c % 256).toNat

/-- ASCII code of the lowercase hexadecimal digit of value `d` (`d < 16`). -/
def hexDigit (d : Nat) : Nat := if d < 10 then 48 + d else 87 + d

/-- Digit generation of the `x` conversion: the digits of `n` in base 16, most
    significant first, put in front of `acc`; at least one digit is produced.
    `fuel` bounds the number of digits. -/
def hexDigitsAux : Nat → Nat → List Nat → List Nat
  | 0, _, acc => acc
  | fuel + 1, n, acc =>
    if n / 16 = 0 then hexDigit (n % 16) :: acc
    else hexDigitsAux fuel (n / 16) (hexDigit (n % 16) :: acc)

/-- Lowercase hexadecimal digits of `n`, most significant first, no leading
    zero (a single `0` for zero). -/
def hexDigits (n : Nat) : List Nat := hexDigitsAux (n + 1) n []

/-- The conversion `%0<width>x` applied to the unsigned value `v`: its
    hexadecimal digits, padded on the left with `0` up to `width` characters. -/
def printfHex (width v : Nat) : List Nat :=
  List.replicate (width - (hexDigits v).length) 48 ++ hexDigits v

/-- The function `isprint` of `<ctype.h>` in the "C" locale. -/
def isprint (c : Int) : Bool := decide (32 ≤ c) && decide (c ≤ 126)

/-- Bytes of a string literal. -/
def bytesOf (s : String) : List Nat := s.toList.map Char.toNat

/-! ## The environment: results of system calls -/

/-- Outcome of one call `read(fd, buf, BUF_SIZE)`: either the call stores the
    bytes `chunk` at the start of `buf` and returns their number (zero at end
    of file), or it fails and returns `-1`. -/
inductive ReadOutcome where
  | bytes (chunk : List Nat)
  | error
deriving DecidableEq

/-- The value `cc` returned by the `read` call. -/
def ReadOutcome.cc : ReadOutcome → Int
  | .bytes chunk => (chunk.length : Int)
  | .error => -1

/-- The first `cc` bytes of `buf` after the `read` call. -/
def ReadOutcome.data : ReadOutcome → List Nat
  | .bytes chunk => chunk
  | .error => []

/-- What the system does with one path argument: the value returned by `open`,
    the outcomes of the successive `read` calls on the descriptor (once the list
    is used up, `read` reports end of file), and the value returned by
    `close`. -/
structure PathBehaviour where
  openRet : Int
  reads : List ReadOutcome
  closeRet : Int
deriving DecidableEq

/-- A system call made by the program. -/
inductive Call where
  | sysOpen (arg : Nat)
  | sysRead (fd : Int) (count : Nat)
  | sysWrite (fd : Int) (data : List Nat)
  | sysClose (fd : Int)
deriving DecidableEq

/-- Observable behaviour of one run: the bytes on standard output, the
    operations reported by `perror`, the exit status, and the system calls
    made, in order. -/
structure Outcome where
  stdout : List Nat
  stderr : List String
  status : Int
  calls : List Call
deriving DecidableEq

/-! ## The program -/

/-- Pass-through branch of `main` (`args <= 1`): one `read` from standard
    input, then one `write` of the `cc` bytes read.  `writeRet` is the value the
    `write` call returns; the bytes that reach standard output are the first
    `writeRet` ones. -/
def passThrough (stdin : ReadOutcome) (writeRet : Int) : Outcome :=
  let cc := stdin.cc
  if cc == -1 then
    { stdout := [], stderr := ["read"], status := 1,
      calls := [.sysRead STDIN_FILENO BUF_SIZE] }
  else
    let calls := [.sysRead STDIN_FILENO BUF_SIZE, .sysWrite STDOUT_FILENO stdin.data]
    if writeRet != cc then
      { stdout := stdin.data.take writeRet.toNat, stderr := ["write"], status := 1,
        calls := calls }
    else
      { stdout := stdin.data.take writeRet.toNat, stderr := [], status := 0,
        calls := calls }

/-- Offset field of a content line: `printf("%06x ", position)`. -/
def offsetField (position : Int) : List Nat :=
  printfHex 6 (toUnsigned position) ++ [32]

/-- Hex field of a content line: `printf("%02x ", buf[i])` for `i < cc`. -/
def hexField (charSigned : Bool) (chunk : List Nat) : List Nat :=
  chunk.flatMap fun b => printfHex 2 (toUnsigned (charToInt charSigned b)) ++ [32]

/-- Padding of a content line: `putchar(' ')` for `i < (16-cc)*3`. -/
def padField (cc : Int) : List Nat :=
  List.replicate ((16 - cc) * 3).toNat 32

/-- ASCII field of a content line: for `i < cc`, a `.` when `!isprint(c)` and
    `printf("%c", c)` otherwise, where `c = buf[i]`. -/
def asciiField (charSigned : Bool) (chunk : List Nat) : List Nat :=
  chunk.map fun b =>
    let c := charToInt charSigned b
    if !isprint c then 46 else toUChar c

/-- One content line: the body of the `while` loop for one chunk. -/
def contentLine (charSigned : Bool) (position : Int) (chunk : List Nat) : List Nat :=
  offsetField position ++ hexField charSigned chunk ++ padField chunk.length
    ++ asciiField charSigned chunk ++ [10]

/-- The line printed after the loop: `printf("%06x\n", position)`. -/
def finalLine (position : Int) : List Nat :=
  printfHex 6 (toUnsigned position) ++ [10]

/-- State at the exit of the `while` loop: the lines printed, the value of
    `position`, the value `cc` of the terminating `read`, and the number of
    `read` calls made. -/
structure LoopEnd where
  lines : List (List Nat)
  position : Int
  cc : Int
  nreads : Nat
deriving DecidableEq

/-- The loop `while((cc = read(fd, buf, BUF_SIZE)) > 0) { ... position += cc; }`
    run from `position` against the outcomes of the successive `read` calls. -/
def readLoop (charSigned : Bool) : Int → List ReadOutcome → LoopEnd
  | position, [] => { lines := [], position := position, cc := 0, nreads := 1 }
  | position, r :: rest =>
    if r.cc > 0 then
      let tl := readLoop charSigned (wrapInt (position + r.cc)) rest
      { tl with lines := contentLine charSigned position r.data :: tl.lines,
                nreads := tl.nreads + 1 }
    else
      { lines := [], position := position, cc := r.cc, nreads := 1 }

/-- The lines written for one opened file: the content lines of the loop, then
    the line printed after it. -/
def fileLines (charSigned : Bool) (reads : List ReadOutcome) : List (List Nat) :=
  let lp := readLoop charSigned 0 reads
  lp.lines ++ [finalLine lp.position]

/-- The loop `for(int i = 1; i < args; i++)` of the dump branch, from argument
    index `i` on, `paths` being the behaviour of `argv[i]`, `argv[i+1]`, ... -/
def dumpFiles (charSigned : Bool) : Nat → List PathBehaviour → Outcome
  | _, [] => { stdout := [], stderr := [], status := 0, calls := [] }
  | i, p :: rest =>
    if p.openRet == -1 then
      { stdout := [], stderr := ["open"], status := 1, calls := [.sysOpen i] }
    else
      let fd := p.openRet
      let lp := readLoop charSigned 0 p.reads
      let out := (fileLines charSigned p.reads).flatten
      let calls := Call.sysOpen i :: List.replicate lp.nreads (Call.sysRead fd BUF_SIZE)
      if lp.cc == -1 then
        { stdout := out, stderr := ["read"], status := 1, calls := calls }
      else if p.closeRet == -1 then
        { stdout := out, stderr := ["close"], status := 1,
          calls := calls ++ [.sysClose fd] }
      else
        let r := dumpFiles charSigned (i + 1) rest
        { stdout := out ++ r.stdout, stderr := r.stderr, status := r.status,
          calls := calls ++ [.sysClose fd] ++ r.calls }

/-- The function `main`: `paths` are the behaviours of `argv[1..]` (so `args` is
    `paths.length + 1`), `stdin` and `writeRet` the results of the `read` and
    `write` calls of the pass-through branch. -/
def main (charSigned : Bool) (stdin : ReadOutcome) (writeRet : Int)
    (paths : List PathBehaviour) : Outcome :=
  if paths.length + 1 ≤ 1 then passThrough stdin writeRet
  else dumpFiles charSigned 1 paths


/-! ## Notions used to state the properties -/

/-- No `read` of the sequence fails before one reports end of file. -/
def readsSucceed : List ReadOutcome → Bool
  | [] => true
  | .error :: _ => false
  | .bytes [] :: _ => true
  | .bytes (_ :: _) :: rest => readsSucceed rest

/-- The path is opened, read to end of file and closed without any failure. -/
def PathBehaviour.succeeds (p : PathBehaviour) : Bool :=
  p.openRet != -1 && readsSucceed p.reads && p.closeRet != -1

/-- Reads that deliver the chunks `chunks` one after the other and then report
    end of file. -/
def cleanReads (chunks : List (List Nat)) : List ReadOutcome :=
  chunks.map ReadOutcome.bytes ++ [ReadOutcome.bytes []]

/-- Number of bytes in the first `i` chunks. -/
def offsetOf (chunks : List (List Nat)) (i : Nat) : Nat :=
  ((chunks.take i).map List.length).sum

/-- Content lines of the chunks `chunks` when `off` bytes precede them. -/
def contentLines (charSigned : Bool) : Nat → List (List Nat) → List (List Nat)
  | _, [] => []
  | off, c :: cs =>
    contentLine charSigned (wrapInt off) c :: contentLines charSigned (off + c.length) cs

/-- Value of the hexadecimal digit with ASCII code `ch`. -/
def hexDigitValue (ch : Nat) : Nat := if ch < 58 then ch - 48 else ch - 87

/-- Number denoted by a string of hexadecimal digits, most significant first. -/
def hexValue : List Nat → Nat
  | [] => 0
  | ch :: rest => hexDigitValue ch * 16 ^ rest.length + hexValue rest

/-! ## Auxiliary facts -/

theorem toUnsigned_wrapInt (x : Int) : toUnsigned (wrapInt x) = toUnsigned x := by
  unfold toUnsigned wrapInt
  congr 1
  omega

theorem wrapInt_wrapInt_add (p a : Int) : wrapInt (wrapInt p + a) = wrapInt (p + a) := by
  unfold wrapInt
  omega

theorem toUnsigned_natCast (n : Nat) : toUnsigned (n : Int) = n % 4294967296 := by
  unfold toUnsigned
  omega

theorem hexDigitValue_hexDigit (d : Nat) (h : d < 16) : hexDigitValue (hexDigit d) = d := by
  unfold hexDigitValue hexDigit
  split_ifs <;> omega

theorem hexValue_hexDigitsAux :
    ∀ (fuel n : Nat) (acc : List Nat), n < fuel →
      hexValue (hexDigitsAux fuel n acc) = n * 16 ^ acc.length + hexValue acc := by
  intro fuel
  induction fuel with
  | zero => intro n acc h; omega
  | succ f ih =>
    intro n acc h
    rw [hexDigitsAux]
    have hd : hexDigitValue (hexDigit (n % 16)) = n % 16 :=
      hexDigitValue_hexDigit _ (Nat.mod_lt _ (by decide))
    by_cases h0 : n / 16 = 0
    · have hn : n % 16 = n := by omega
      rw [if_pos h0, hexValue, hd, hn]
    · have hlt : n / 16 < f := by omega
      rw [if_neg h0, ih (n / 16) _ hlt, hexValue, hd, List.length_cons, pow_succ]
      have hn : n = 16 * (n / 16) + n % 16 := (Nat.div_add_mod n 16).symm
      generalize 16 ^ acc.length = p at *
      generalize hexValue acc = v at *
      generalize n / 16 = q at *
      generalize n % 16 = r at *
      subst hn
      ring

theorem hexValue_hexDigits (n : Nat) : hexValue (hexDigits n) = n := by
  rw [hexDigits, hexValue_hexDigitsAux (n + 1) n [] (Nat.lt_succ_self n)]
  simp [hexValue]

theorem hexValue_zeros_append (k : Nat) (ds : List Nat) :
    hexValue (List.replicate k 48 ++ ds) = hexValue ds := by
  induction k with
  | zero => rfl
  | succ k ih =>
    rw [List.replicate_succ, List.cons_append, hexValue, ih]
    simp [hexDigitValue]

theorem hexValue_printfHex (width n : Nat) : hexValue (printfHex width n) = n := by
  rw [printfHex, hexValue_zeros_append, hexValue_hexDigits]

theorem length_printfHex (width n : Nat) : width ≤ (printfHex width n).length := by
  rw [printfHex, List.length_append, List.length_replicate]
  omega

theorem readLoop_chunks (sgn : Bool) (tail : List ReadOutcome) :
    ∀ (chunks : List (List Nat)) (off : Nat), (∀ c ∈ chunks, c ≠ []) →
      readLoop sgn (wrapInt off) (chunks.map ReadOutcome.bytes ++ tail) =
        { lines := contentLines sgn off chunks ++
            (readLoop sgn (wrapInt ((off + (chunks.map List.length).sum : Nat) : Int)) tail).lines,
          position :=
            (readLoop sgn (wrapInt ((off + (chunks.map List.length).sum : Nat) : Int)) tail).position,
          cc := (readLoop sgn (wrapInt ((off + (chunks.map List.length).sum : Nat) : Int)) tail).cc,
          nreads :=
            (readLoop sgn (wrapInt ((off + (chunks.map List.length).sum : Nat) : Int)) tail).nreads
              + chunks.length } := by
  intro chunks
  induction chunks with
  | nil => intro off _; simp [contentLines]
  | cons c cs ih =>
    intro off h
    have hc : c ≠ [] := h c (List.mem_cons_self _ _)
    have hcs : ∀ d ∈ cs, d ≠ [] := fun d hd => h d (List.mem_cons_of_mem _ hd)
    have hpos : (0 : Int) < (c.length : Int) := by
      have : 0 < c.length := List.length_pos.mpr hc
      omega
    have hw : wrapInt (wrapInt (off : Int) + (c.length : Int))
        = wrapInt ((off + c.length : Nat) : Int) := by
      rw [wrapInt_wrapInt_add]; push_cast; rfl
    have ho : off + c.length + (cs.map List.length).sum
        = off + ((c :: cs).map List.length).sum := by
      simp [Nat.add_assoc]
    rw [show (c :: cs).map ReadOutcome.bytes ++ tail
        = ReadOutcome.bytes c :: (cs.map ReadOutcome.bytes ++ tail) from rfl, readLoop]
    simp only [ReadOutcome.cc, ReadOutcome.data, hpos, if_true, gt_iff_lt]
    rw [hw, ih (off + c.length) hcs, ho]
    simp [contentLines, Nat.add_assoc]

theorem length_contentLines (sgn : Bool) :
    ∀ (chunks : List (List Nat)) (off : Nat), (contentLines sgn off chunks).length = chunks.length := by
  intro chunks
  induction chunks with
  | nil => intro off; rfl
  | cons c cs ih => intro off; simp [contentLines, ih]

theorem getElem?_contentLines (sgn : Bool) :
    ∀ (chunks : List (List Nat)) (off i : Nat) (c : List Nat), chunks[i]? = some c →
      (contentLines sgn off chunks)[i]? =
        some (contentLine sgn (wrapInt ((off + offsetOf chunks i : Nat) : Int)) c) := by
  intro chunks
  induction chunks with
  | nil => intro off i c h; simp at h
  | cons d ds ih =>
    intro off i c h
    cases i with
    | zero =>
      simp only [List.getElem?_cons_zero, Option.some.injEq] at h
      simp [contentLines, offsetOf, h]
    | succ j =>
      simp only [List.getElem?_cons_succ] at h
      simp only [contentLines, List.getElem?_cons_succ, ih (off + d.length) j c h]
      simp [offsetOf, Nat.add_assoc]

theorem fileLines_chunks_eof (sgn : Bool) (chunks : List (List Nat)) (more : List ReadOutcome)
    (h : ∀ c ∈ chunks, c ≠ []) :
    fileLines sgn (chunks.map ReadOutcome.bytes ++ ReadOutcome.bytes [] :: more) =
      contentLines sgn 0 chunks ++ [finalLine (wrapInt ((chunks.map List.length).sum : Nat))] := by
  have := readLoop_chunks sgn (ReadOutcome.bytes [] :: more) chunks 0 h
  simp only [show wrapInt ((0 : Nat) : Int) = 0 from rfl, Nat.zero_add] at this
  simp [fileLines, this, readLoop, ReadOutcome.cc]

theorem fileLines_chunks_error (sgn : Bool) (chunks : List (List Nat)) (more : List ReadOutcome)
    (h : ∀ c ∈ chunks, c ≠ []) :
    fileLines sgn (chunks.map ReadOutcome.bytes ++ ReadOutcome.error :: more) =
      contentLines sgn 0 chunks ++ [finalLine (wrapInt ((chunks.map List.length).sum : Nat))] := by
  have := readLoop_chunks sgn (ReadOutcome.error :: more) chunks 0 h
  simp only [show wrapInt ((0 : Nat) : Int) = 0 from rfl, Nat.zero_add] at this
  simp [fileLines, this, readLoop, ReadOutcome.cc]

theorem finalLine_wrapInt (n : Nat) : finalLine (wrapInt (n : Int)) = printfHex 6 (n % 4294967296) ++ [10] := by
  simp [finalLine, toUnsigned_wrapInt, toUnsigned_natCast]

theorem offsetField_wrapInt (n : Nat) :
    offsetField (wrapInt (n : Int)) = printfHex 6 (n % 4294967296) ++ [32] := by
  simp [offsetField, toUnsigned_wrapInt, toUnsigned_natCast]

theorem nonempty_of_sizes {chunks : List (List Nat)}
    (h : ∀ c ∈ chunks, 1 ≤ c.length ∧ c.length ≤ 16) : ∀ c ∈ chunks, c ≠ [] := by
  intro c hc hnil
  have := (h c hc).1
  simp [hnil] at this

theorem main_single_stdout (sgn : Bool) (si : ReadOutcome) (w fd cl : Int)
    (reads : List ReadOutcome) (hfd : fd ≠ -1) :
    (main sgn si w [⟨fd, reads, cl⟩]).stdout = (fileLines sgn reads).flatten := by
  simp only [main, List.length_singleton, dumpFiles]
  simp only [show ¬ (1 + 1 ≤ 1) by decide, if_false, beq_iff_eq, hfd]
  split <;> [skip; split] <;> simp

/-- C2 (amended): for a file of `N < 2^32` bytes delivered by successful reads of
    1..16 bytes each and then end of file, the last line of the dump is `N` in
    lowercase hexadecimal zero-padded to 6 digits followed by a newline, it is
    preceded by one content line per chunk, the chunk sizes sum to `N`, and an
    empty file gives the single line `000000`. -/
theorem C2_final_offset_is_file_length (sgn : Bool) (si : ReadOutcome) (w fd cl : Int)
    (data : List Nat) (chunks : List (List Nat))
    (hfd : fd ≠ -1)
    (hsplit : chunks.flatten = data)
    (hsz : ∀ c ∈ chunks, 1 ≤ c.length ∧ c.length ≤ 16)
    (hN : data.length < 4294967296) :
    (main sgn si w [⟨fd, cleanReads chunks, cl⟩]).stdout
        = (fileLines sgn (cleanReads chunks)).flatten ∧
      (fileLines sgn (cleanReads chunks)).getLast? = some (printfHex 6 data.length ++ [10]) ∧
      (fileLines sgn (cleanReads chunks)).length = chunks.length + 1 ∧
      (∀ (i : Nat) (c : List Nat), chunks[i]? = some c →
        ∃ position, (fileLines sgn (cleanReads chunks))[i]? = some (contentLine sgn position c)) ∧
      (chunks.map List.length).sum = data.length ∧
      (data = [] → (main sgn si w [⟨fd, cleanReads chunks, cl⟩]).stdout = bytesOf "000000\n") := by
  have hne := nonempty_of_sizes hsz
  have hsum : (chunks.map List.length).sum = data.length := by
    rw [← hsplit, List.length_flatten]
  have hfl : fileLines sgn (cleanReads chunks)
      = contentLines sgn 0 chunks ++ [printfHex 6 data.length ++ [10]] := by
    rw [cleanReads, fileLines_chunks_eof sgn chunks [] hne, finalLine_wrapInt, hsum,
      Nat.mod_eq_of_lt hN]
  refine ⟨main_single_stdout sgn si w fd cl _ hfd, ?_, ?_, ?_, hsum, ?_⟩
  · rw [hfl]; simp
  · rw [hfl]; simp [length_contentLines]
  · intro i c hi
    refine ⟨wrapInt ((0 + offsetOf chunks i : Nat) : Int), ?_⟩
    have hlt : i < (contentLines sgn 0 chunks).length := by
      rw [length_contentLines]
      exact (List.getElem?_eq_some.mp hi).1
    rw [hfl, List.getElem?_append_left hlt]
    exact getElem?_contentLines sgn chunks 0 i c hi
  · intro hd
    have hc : chunks = [] := by
      cases chunks with
      | nil => rfl
      | cons c cs =>
        exfalso
        have h1 := (hsz c (List.mem_cons_self _ _)).1
        have h2 : c.length ≤ ((c :: cs).map List.length).sum := by simp
        rw [hsum, hd, List.length_nil] at h2
        omega
    rw [main_single_stdout sgn si w fd cl _ hfd, hc]
    cases sgn <;> decide

theorem C2_final_offset_is_file_length_witness :
    (main true ReadOutcome.error 0 [⟨3, cleanReads [[65, 66, 10]], 0⟩]).stdout
        = (fileLines true (cleanReads [[65, 66, 10]])).flatten ∧
      (fileLines true (cleanReads [[65, 66, 10]])).getLast?
        = some (printfHex 6 [65, 66, 10].length ++ [10]) ∧
      (fileLines true (cleanReads [[65, 66, 10]])).length = [[65, 66, 10]].length + 1 ∧
      (∀ (i : Nat) (c : List Nat), [[65, 66, 10]][i]? = some c →
        ∃ position, (fileLines true (cleanReads [[65, 66, 10]]))[i]?
          = some (contentLine true position c)) ∧
      ([[65, 66, 10]].map List.length).sum = [65, 66, 10].length ∧
      ([65, 66, 10] = [] →
        (main true ReadOutcome.error 0 [⟨3, cleanReads [[65, 66, 10]], 0⟩]).stdout
          = bytesOf "000000\n") :=
  C2_final_offset_is_file_length true ReadOutcome.error 0 3 0 [65, 66, 10] [[65, 66, 10]]
    (by decide) (by decide) (by decide) (by decide)

/-- C2, counterexample: a file of `2^32` bytes read in `2^28` chunks of 16 bytes
    ends its dump with the line `000000`, which is not `2^32` in hexadecimal. -/
theorem C2_counterexample_wraps_at_4GiB :
    (∀ c ∈ List.replicate 268435456 (List.replicate 16 0), 1 ≤ c.length ∧ c.length ≤ 16) ∧
      (List.replicate 268435456 (List.replicate 16 0)).flatten.length = 4294967296 ∧
      (fileLines true (cleanReads (List.replicate 268435456 (List.replicate 16 0)))).getLast?
        = some (bytesOf "000000\n") ∧
      bytesOf "000000\n" ≠ printfHex 6 4294967296 ++ [10] := by
  have hmem : ∀ c ∈ List.replicate 268435456 (List.replicate 16 0),
      1 ≤ c.length ∧ c.length ≤ 16 := by
    intro c hc
    rw [List.eq_of_mem_replicate hc]
    decide
  have hsum : ((List.replicate 268435456 (List.replicate 16 0)).map List.length).sum
      = 4294967296 := by
    rw [List.map_replicate, List.sum_replicate]
    rfl
  refine ⟨hmem, ?_, ?_, by decide⟩
  · rw [List.length_flatten, hsum]
  · rw [cleanReads, fileLines_chunks_eof true _ [] (nonempty_of_sizes hmem), finalLine_wrapInt,
      hsum, List.getLast?_concat]
    decide

theorem offsetOf_succ (chunks : List (List Nat)) (i : Nat) (c : List Nat)
    (h : chunks[i]? = some c) : offsetOf chunks (i + 1) = offsetOf chunks i + c.length := by
  simp [offsetOf, List.take_succ, h]

theorem offsetOf_length (chunks : List (List Nat)) :
    offsetOf chunks chunks.length = (chunks.map List.length).sum := by
  simp [offsetOf]

theorem offsetOf_le (chunks : List (List Nat)) (i : Nat) :
    offsetOf chunks i ≤ (chunks.map List.length).sum := by
  have h : (chunks.map List.length).sum
      = offsetOf chunks i + ((chunks.drop i).map List.length).sum := by
    rw [offsetOf, ← List.sum_append, ← List.map_append, List.take_append_drop]
  omega

theorem offsetOf_full : ∀ (chunks : List (List Nat)) (k : Nat), k ≤ chunks.length →
    (∀ c ∈ chunks.take k, c.length = 16) → offsetOf chunks k = 16 * k := by
  intro chunks
  induction chunks with
  | nil => intro k hk _; simp at hk; simp [hk, offsetOf]
  | cons c cs ih =>
    intro k hk h
    cases k with
    | zero => simp [offsetOf]
    | succ j =>
      have hj : j ≤ cs.length := by simpa using hk
      have h1 : c.length = 16 := h c (by simp)
      have h2 : ∀ d ∈ cs.take j, d.length = 16 := fun d hd => h d (by simp [hd])
      have := ih j hj h2
      simp only [offsetOf] at this ⊢
      simp only [List.take_succ_cons, List.map_cons, List.sum_cons, h1, this]
      omega

/-- C10 (amended): within the dump of a file of fewer than `2^32` bytes, content
    line `i` starts with the number of bytes of the earlier chunks in lowercase
    hexadecimal zero-padded to 6 digits and a space; that number is 0 for the
    first line and `16 * k` for line `k` when the earlier reads were all full;
    each line's offset is the previous one plus the previous chunk's size, hence
    strictly larger, the final line's offset included. -/
theorem C10_offsets_are_running_totals (sgn : Bool) (chunks : List (List Nat))
    (hsz : ∀ c ∈ chunks, 1 ≤ c.length ∧ c.length ≤ 16)
    (hN : (chunks.map List.length).sum < 4294967296) :
    (∀ (i : Nat) (c : List Nat), chunks[i]? = some c →
        (fileLines sgn (cleanReads chunks))[i]? =
          some (printfHex 6 (offsetOf chunks i) ++ [32] ++ hexField sgn c ++ padField c.length
            ++ asciiField sgn c ++ [10])) ∧
      (fileLines sgn (cleanReads chunks))[chunks.length]?
        = some (printfHex 6 (offsetOf chunks chunks.length) ++ [10]) ∧
      offsetOf chunks 0 = 0 ∧
      (∀ k : Nat, k ≤ chunks.length → (∀ c ∈ chunks.take k, c.length = 16) →
        offsetOf chunks k = 16 * k) ∧
      (∀ (i : Nat) (c : List Nat), chunks[i]? = some c →
        offsetOf chunks (i + 1) = offsetOf chunks i + c.length ∧
          offsetOf chunks i < offsetOf chunks (i + 1)) := by
  have hne := nonempty_of_sizes hsz
  have hfl : fileLines sgn (cleanReads chunks)
      = contentLines sgn 0 chunks ++ [printfHex 6 (offsetOf chunks chunks.length) ++ [10]] := by
    rw [cleanReads, fileLines_chunks_eof sgn chunks [] hne, finalLine_wrapInt, offsetOf_length,
      Nat.mod_eq_of_lt hN]
  refine ⟨?_, ?_, by simp [offsetOf], offsetOf_full chunks, ?_⟩
  · intro i c hi
    have hlt : i < (contentLines sgn 0 chunks).length := by
      rw [length_contentLines]
      exact (List.getElem?_eq_some.mp hi).1
    have hoff : offsetOf chunks i % 4294967296 = offsetOf chunks i :=
      Nat.mod_eq_of_lt (Nat.lt_of_le_of_lt (offsetOf_le chunks i) hN)
    rw [hfl, List.getElem?_append_left hlt, getElem?_contentLines sgn chunks 0 i c hi,
      Nat.zero_add, contentLine, offsetField_wrapInt, hoff]
  · rw [hfl, List.getElem?_append_right (by rw [length_contentLines])]
    simp [length_contentLines]
  · intro i c hi
    have hs := offsetOf_succ chunks i c hi
    have hc := (hsz c (List.getElem?_mem hi)).1
    omega

theorem C10_offsets_are_running_totals_witness :
    (∀ (i : Nat) (c : List Nat), [[1, 2], [3]][i]? = some c →
        (fileLines true (cleanReads [[1, 2], [3]]))[i]? =
          some (printfHex 6 (offsetOf [[1, 2], [3]] i) ++ [32] ++ hexField true c
            ++ padField c.length ++ asciiField true c ++ [10])) ∧
      (fileLines true (cleanReads [[1, 2], [3]]))[[[1, 2], [3]].length]?
        = some (printfHex 6 (offsetOf [[1, 2], [3]] [[1, 2], [3]].length) ++ [10]) ∧
      offsetOf [[1, 2], [3]] 0 = 0 ∧
      (∀ k : Nat, k ≤ [[1, 2], [3]].length → (∀ c ∈ [[1, 2], [3]].take k, c.length = 16) →
        offsetOf [[1, 2], [3]] k = 16 * k) ∧
      (∀ (i : Nat) (c : List Nat), [[1, 2], [3]][i]? = some c →
        offsetOf [[1, 2], [3]] (i + 1) = offsetOf [[1, 2], [3]] i + c.length ∧
          offsetOf [[1, 2], [3]] i < offsetOf [[1, 2], [3]] (i + 1)) :=
  C10_offsets_are_running_totals true [[1, 2], [3]] (by decide) (by decide)

/-- C10, counterexample: in the dump of `2^28 + 1` full chunks, content line
    `2^28` carries the offset `000000`, like the first line, although
    `16 * 2^28` bytes precede it, whose hexadecimal form is `100000000`. -/
theorem C10_counterexample_offset_wraps :
    (∀ c ∈ List.replicate 268435457 (List.replicate 16 0), 1 ≤ c.length ∧ c.length ≤ 16) ∧
      (fileLines true (cleanReads (List.replicate 268435457 (List.replicate 16 0))))[268435456]?
        = some (bytesOf "000000 " ++ hexField true (List.replicate 16 0) ++ padField 16
            ++ asciiField true (List.replicate 16 0) ++ [10]) ∧
      (fileLines true (cleanReads (List.replicate 268435457 (List.replicate 16 0))))[0]?
        = some (bytesOf "000000 " ++ hexField true (List.replicate 16 0) ++ padField 16
            ++ asciiField true (List.replicate 16 0) ++ [10]) ∧
      printfHex 6 (16 * 268435456) = bytesOf "100000000" := by
  have hmem : ∀ c ∈ List.replicate 268435457 (List.replicate 16 0),
      1 ≤ c.length ∧ c.length ≤ 16 := by
    intro c hc
    rw [List.eq_of_mem_replicate hc]
    decide
  have hget : ∀ i : Nat, i < 268435457 →
      (List.replicate 268435457 (List.replicate 16 0))[i]? = some (List.replicate 16 0) := by
    intro i hi
    rw [List.getElem?_replicate, if_pos hi]
  have hoff : ∀ i : Nat, i < 268435457 →
      offsetOf (List.replicate 268435457 (List.replicate 16 0)) i = i * 16 := by
    intro i hi
    rw [offsetOf, List.take_replicate, List.map_replicate, List.sum_replicate,
      Nat.min_eq_left (Nat.le_of_lt hi)]
    rfl
  have hline : ∀ i : Nat, i < 268435457 →
      (fileLines true (cleanReads (List.replicate 268435457 (List.replicate 16 0))))[i]?
        = some (contentLine true (wrapInt ((i * 16 : Nat) : Int)) (List.replicate 16 0)) := by
    intro i hi
    have hlt : i < (contentLines true 0
        (List.replicate 268435457 (List.replicate 16 0))).length := by
      rw [length_contentLines, List.length_replicate]
      exact hi
    rw [cleanReads, fileLines_chunks_eof true _ [] (nonempty_of_sizes hmem),
      List.getElem?_append_left hlt, getElem?_contentLines true _ 0 i _ (hget i hi),
      Nat.zero_add, hoff i hi]
  refine ⟨hmem, ?_, ?_, by decide⟩
  · rw [hline 268435456 (by decide)]
    decide
  · rw [hline 0 (by decide)]
    decide

theorem hexDigits_two_digits (b : Nat) (h : b < 256) :
    hexDigits b = if b / 16 = 0 then [hexDigit (b % 16)]
      else [hexDigit (b / 16), hexDigit (b % 16)] := by
  unfold hexDigits
  rw [hexDigitsAux]
  by_cases h0 : b / 16 = 0
  · simp [h0]
  · rw [if_neg h0, if_neg h0]
    obtain ⟨k, rfl⟩ : ∃ k, b = k + 1 := ⟨b - 1, by omega⟩
    rw [hexDigitsAux]
    have h1 : (k + 1) / 16 / 16 = 0 := by omega
    have h2 : (k + 1) / 16 % 16 = (k + 1) / 16 := by omega
    rw [if_pos h1, h2]

theorem printfHex_two_digits (b : Nat) (h : b < 256) :
    printfHex 2 b = [hexDigit (b / 16), hexDigit (b % 16)] := by
  rw [printfHex, hexDigits_two_digits b h]
  by_cases h0 : b / 16 = 0
  · rw [if_pos h0, h0]
    rfl
  · rw [if_neg h0]
    rfl

theorem toUnsigned_charToInt_low (sgn : Bool) (b : Nat) (h : b < 256)
    (hs : sgn = true → b < 128) : toUnsigned (charToInt sgn b) = b := by
  cases sgn
  · simp only [charToInt, Bool.false_and, Bool.false_eq_true, if_false, toUnsigned]
    omega
  · have hb : ¬ 128 ≤ b := by have := hs rfl; omega
    simp only [charToInt, Bool.true_and, decide_eq_true_eq, hb, if_false, toUnsigned]
    omega

theorem hexField_low_bytes (sgn : Bool) :
    ∀ chunk : List Nat, (∀ b ∈ chunk, b < 256 ∧ (sgn = true → b < 128)) →
      hexField sgn chunk = chunk.flatMap (fun b => [hexDigit (b / 16), hexDigit (b % 16), 32]) ∧
        (hexField sgn chunk).length = 3 * chunk.length := by
  intro chunk
  induction chunk with
  | nil => intro _; simp [hexField]
  | cons b bs ih =>
    intro h
    have hb := h b (List.mem_cons_self _ _)
    have ih2 := ih (fun x hx => h x (List.mem_cons_of_mem _ hx))
    have e : hexField sgn (b :: bs)
        = (printfHex 2 (toUnsigned (charToInt sgn b)) ++ [32]) ++ hexField sgn bs := by
      simp [hexField]
    rw [e, toUnsigned_charToInt_low sgn b hb.1 hb.2, printfHex_two_digits b hb.1, ih2.1]
    refine ⟨by simp, ?_⟩
    rw [← ih2.1]
    simp only [List.length_append, List.length_cons, List.length_nil, ih2.2]
    omega

theorem alignment_low_bytes (sgn : Bool) (chunk : List Nat)
    (h : ∀ b ∈ chunk, b < 256 ∧ (sgn = true → b < 128)) (hcc : chunk.length ≤ 16) :
    (hexField sgn chunk ++ padField chunk.length).length = 48 := by
  rw [List.length_append, (hexField_low_bytes sgn chunk h).2, padField, List.length_replicate]
  omega

/-- C1, failing input: where plain `char` is signed, the byte `0x80` is printed
    by `%02x` as the eight digits `ffffff80`, so the hex field of a one-byte
    chunk is 9 characters long instead of 3. -/
theorem C1_high_byte_token_has_eight_digits :
    hexField true [128] = bytesOf "ffffff80 " ∧
      (hexField true [128]).length = 9 ∧
      (main true ReadOutcome.error 0 [⟨3, cleanReads [[128]], 0⟩]).stdout
        = bytesOf "000000 ffffff80 " ++ List.replicate 45 32 ++ bytesOf ".\n000001\n" := by
  decide

/-- C3, failing input: where plain `char` is signed, the ASCII field of a line
    holding the single byte `0x80` starts 54 characters after the start of the
    hex field, that of a line holding the single byte `0x41` starts 48
    characters after it. -/
theorem C3_high_byte_shifts_ascii_column :
    (hexField true [128] ++ padField ([128] : List Nat).length).length = 54 ∧
      (hexField true [65] ++ padField ([65] : List Nat).length).length = 48 ∧
      (fileLines true (cleanReads [[65], [128]])).flatten
        = bytesOf "000000 41 " ++ List.replicate 45 32 ++ bytesOf "A\n"
          ++ bytesOf "000001 ffffff80 " ++ List.replicate 45 32 ++ bytesOf ".\n"
          ++ bytesOf "000002\n" := by
  decide

theorem asciiField_eq (sgn : Bool) (chunk : List Nat) (hb : ∀ b ∈ chunk, b < 256) :
    asciiField sgn chunk = chunk.map (fun b => if 32 ≤ b ∧ b ≤ 126 then b else 46) := by
  unfold asciiField
  apply List.map_congr_left
  intro b hmem
  have h256 := hb b hmem
  have hc : charToInt sgn b = (b : Int) ∨ (128 ≤ b ∧ charToInt sgn b = (b : Int) - 256) := by
    unfold charToInt
    cases sgn
    · left; simp
    · by_cases hhi : 128 ≤ b
      · right; simp [hhi]
      · left; simp [hhi]
  simp only [isprint, toUChar, Bool.not_eq_true', Bool.and_eq_false_iff, decide_eq_false_iff_not]
  rcases hc with hc | ⟨h128, hc⟩ <;> rw [hc] <;> split_ifs <;> omega

/-- C5: the ASCII field of a content line has one character per byte of the
    chunk, the byte itself when it lies in `0x20..0x7e` and `.` otherwise; the
    bytes `00 41 20` give the hex tokens `00 41 20` and the rendering `.A `. -/
theorem C5_ascii_field_rendering (sgn : Bool) (position : Int) (chunk : List Nat)
    (hb : ∀ b ∈ chunk, b < 256) :
    contentLine sgn position chunk
        = offsetField position ++ hexField sgn chunk ++ padField chunk.length
          ++ chunk.map (fun b => if 32 ≤ b ∧ b ≤ 126 then b else 46) ++ [10] ∧
      asciiField sgn chunk = chunk.map (fun b => if 32 ≤ b ∧ b ≤ 126 then b else 46) ∧
      (asciiField sgn chunk).length = chunk.length ∧
      asciiField sgn [0, 10, 32, 126, 127, 128, 255] = bytesOf ".. ~..." ∧
      asciiField sgn [0, 65, 32] = bytesOf ".A " ∧
      hexField sgn [0, 65, 32] = bytesOf "00 41 20 " := by
  have h := asciiField_eq sgn chunk hb
  refine ⟨by rw [contentLine, h], h, by simp [asciiField], ?_, ?_, ?_⟩ <;>
    cases sgn <;> decide

theorem C5_ascii_field_rendering_witness :
    contentLine true 0 [72, 105, 10, 200]
        = offsetField 0 ++ hexField true [72, 105, 10, 200]
          ++ padField ([72, 105, 10, 200] : List Nat).length
          ++ [72, 105, 10, 200].map (fun b => if 32 ≤ b ∧ b ≤ 126 then b else 46) ++ [10] ∧
      asciiField true [72, 105, 10, 200]
        = [72, 105, 10, 200].map (fun b => if 32 ≤ b ∧ b ≤ 126 then b else 46) ∧
      (asciiField true [72, 105, 10, 200]).length = [72, 105, 10, 200].length ∧
      asciiField true [0, 10, 32, 126, 127, 128, 255] = bytesOf ".. ~..." ∧
      asciiField true [0, 65, 32] = bytesOf ".A " ∧
      hexField true [0, 65, 32] = bytesOf "00 41 20 " :=
  C5_ascii_field_rendering true 0 [72, 105, 10, 200] (by decide)

/-- C4 (amended): dumping a file holding the bytes `41 42 0a`, delivered by one
    read, writes the line `000000 41 42 0a`, 40 spaces, `AB.` and then the line
    `000003`. -/
theorem C4_example_dump (sgn : Bool) (si : ReadOutcome) (w fd cl : Int) (hfd : fd ≠ -1) :
    (main sgn si w [⟨fd, cleanReads [[65, 66, 10]], cl⟩]).stdout
      = bytesOf "000000 41 42 0a" ++ List.replicate 40 32 ++ bytesOf "AB.\n"
        ++ bytesOf "000003\n" := by
  rw [main_single_stdout sgn si w fd cl _ hfd]
  cases sgn <;> decide

theorem C4_example_dump_witness :
    (main true ReadOutcome.error 0 [⟨3, cleanReads [[65, 66, 10]], 0⟩]).stdout
      = bytesOf "000000 41 42 0a" ++ List.replicate 40 32 ++ bytesOf "AB.\n"
        ++ bytesOf "000003\n" :=
  C4_example_dump true ReadOutcome.error 0 3 0 (by decide)

/-- C4, counterexample: the dump of the bytes `41 42 0a` is not the line
    `000000 41 42 0a`, 43 spaces, `AB.` followed by the line `000003`. -/
theorem C4_counterexample_not_43_spaces :
    (main true ReadOutcome.error 0 [⟨3, cleanReads [[65, 66, 10]], 0⟩]).stdout
      ≠ bytesOf "000000 41 42 0a" ++ List.replicate 43 32 ++ bytesOf "AB.\n"
        ++ bytesOf "000003\n" := by
  decide

theorem readLoop_cc_of_readsSucceed (sgn : Bool) :
    ∀ (reads : List ReadOutcome) (pos : Int), readsSucceed reads = true →
      (readLoop sgn pos reads).cc ≠ -1 := by
  intro reads
  induction reads with
  | nil => intro pos _; simp [readLoop]
  | cons r rest ih =>
    intro pos h
    cases r with
    | error => simp [readsSucceed] at h
    | bytes chunk =>
      cases chunk with
      | nil => simp [readLoop, ReadOutcome.cc]
      | cons b bs =>
        have hpos : (0 : Int) < ((b :: bs).length : Int) := by
          simp only [List.length_cons]; omega
        simp only [readsSucceed] at h
        simp only [readLoop, ReadOutcome.cc, gt_iff_lt, hpos, if_true]
        exact ih _ h

theorem main_eq_dumpFiles (sgn : Bool) (si : ReadOutcome) (w : Int)
    (paths : List PathBehaviour) (hne : paths ≠ []) :
    main sgn si w paths = dumpFiles sgn 1 paths := by
  have : ¬ (paths.length + 1 ≤ 1) := by
    have := List.length_pos.mpr hne
    omega
  simp [main, this]

theorem dumpFiles_cons_succeeds (sgn : Bool) (i : Nat) (p : PathBehaviour)
    (rest : List PathBehaviour) (hp : p.succeeds = true) :
    dumpFiles sgn i (p :: rest) =
      { stdout := (fileLines sgn p.reads).flatten ++ (dumpFiles sgn (i + 1) rest).stdout,
        stderr := (dumpFiles sgn (i + 1) rest).stderr,
        status := (dumpFiles sgn (i + 1) rest).status,
        calls := Call.sysOpen i ::
          List.replicate (readLoop sgn 0 p.reads).nreads (Call.sysRead p.openRet BUF_SIZE)
          ++ [Call.sysClose p.openRet] ++ (dumpFiles sgn (i + 1) rest).calls } := by
  simp only [PathBehaviour.succeeds, Bool.and_eq_true, bne_iff_ne, ne_eq] at hp
  obtain ⟨⟨ho, hr⟩, hc⟩ := hp
  have hcc := readLoop_cc_of_readsSucceed sgn p.reads 0 hr
  simp [dumpFiles, ho, hc, hcc]

theorem dumpFiles_append (sgn : Bool) (rest : List PathBehaviour) :
    ∀ (pre : List PathBehaviour) (i : Nat), (∀ q ∈ pre, q.succeeds = true) →
      dumpFiles sgn i (pre ++ rest) =
        { stdout := (pre.map fun q => (fileLines sgn q.reads).flatten).flatten
            ++ (dumpFiles sgn (i + pre.length) rest).stdout,
          stderr := (dumpFiles sgn (i + pre.length) rest).stderr,
          status := (dumpFiles sgn (i + pre.length) rest).status,
          calls := (dumpFiles sgn i pre).calls
            ++ (dumpFiles sgn (i + pre.length) rest).calls } := by
  intro pre
  induction pre with
  | nil => intro i _; simp [dumpFiles]
  | cons p ps ih =>
    intro i h
    have hp := h p (List.mem_cons_self _ _)
    have hps : ∀ q ∈ ps, q.succeeds = true := fun q hq => h q (List.mem_cons_of_mem _ hq)
    rw [List.cons_append, dumpFiles_cons_succeeds sgn i p _ hp, ih (i + 1) hps,
      dumpFiles_cons_succeeds sgn i p ps hp]
    have e : i + 1 + ps.length = i + (p :: ps).length := by simp; omega
    simp [e]

theorem sysOpen_mem_calls (sgn : Bool) :
    ∀ (paths : List PathBehaviour) (i j : Nat),
      Call.sysOpen j ∈ (dumpFiles sgn i paths).calls → i ≤ j ∧ j < i + paths.length := by
  intro paths
  induction paths with
  | nil => intro i j h; simp [dumpFiles] at h
  | cons p ps ih =>
    intro i j h
    have hrep : ∀ (n : Nat) (fd : Int),
        Call.sysOpen j ∉ List.replicate n (Call.sysRead fd BUF_SIZE) := by
      intro n fd hm
      have := List.eq_of_mem_replicate hm
      cases this
    simp only [dumpFiles] at h
    split at h
    · simp at h; simp [h]
    · split at h
      · simp only [List.mem_cons, Call.sysOpen.injEq] at h
        rcases h with h | h
        · simp [h]
        · exact absurd h (hrep _ _)
      · split at h
        · simp only [List.cons_append, List.mem_cons, Call.sysOpen.injEq, List.mem_append,
            List.mem_singleton, List.not_mem_nil, or_false] at h
          rcases h with h | h | h
          · simp [h]
          · exact absurd h (hrep _ _)
          · cases h
        · simp only [List.cons_append, List.mem_cons, Call.sysOpen.injEq, List.mem_append,
            List.mem_singleton, List.not_mem_nil, or_false, List.append_assoc] at h
          rcases h with h | h | h | h
          · simp [h]
          · exact absurd h (hrep _ _)
          · cases h
          · have := ih (i + 1) j (h.resolve_left id)
            simp only [List.length_cons]
            omega

theorem dumps_alone (sgn : Bool) (si : ReadOutcome) (w : Int) (pre : List PathBehaviour)
    (hpre : ∀ q ∈ pre, q.succeeds = true) :
    (pre.map fun q => (main sgn si w [q]).stdout)
      = pre.map fun q => (fileLines sgn q.reads).flatten := by
  apply List.map_congr_left
  intro q hq
  have h := hpre q hq
  simp only [PathBehaviour.succeeds, Bool.and_eq_true, bne_iff_ne, ne_eq] at h
  exact main_single_stdout sgn si w q.openRet q.closeRet q.reads h.1.1

theorem status_of_all_succeed (sgn : Bool) :
    ∀ (paths : List PathBehaviour) (i : Nat), (∀ q ∈ paths, q.succeeds = true) →
      (dumpFiles sgn i paths).status = 0 ∧ (dumpFiles sgn i paths).stderr = [] := by
  intro paths i h
  have := dumpFiles_append sgn [] paths i h
  rw [List.append_nil] at this
  rw [this]
  simp [dumpFiles]

/-- C7: when the path at index `k` cannot be opened and the paths before it are
    dumped without failure, the exit status is non-zero, standard output is the
    concatenation of the complete dumps of the paths before `k`, `open` is the
    operation reported, and no later path is opened; and a run over path
    arguments in which no open, read or close fails ends with status zero. -/
theorem C7_open_failure_stops_run (sgn : Bool) (si : ReadOutcome) (w : Int)
    (pre post : List PathBehaviour) (p : PathBehaviour)
    (hpre : ∀ q ∈ pre, q.succeeds = true) (hp : p.openRet = -1) :
    (main sgn si w (pre ++ p :: post)).status ≠ 0 ∧
      (main sgn si w (pre ++ p :: post)).stdout
        = (pre.map fun q => (main sgn si w [q]).stdout).flatten ∧
      (main sgn si w (pre ++ p :: post)).stderr = ["open"] ∧
      (∀ j : Nat, pre.length + 1 < j →
        Call.sysOpen j ∉ (main sgn si w (pre ++ p :: post)).calls) ∧
      main sgn si w (pre ++ p :: post) = main sgn si w (pre ++ [p]) ∧
      (∀ paths : List PathBehaviour, paths ≠ [] → (∀ q ∈ paths, q.succeeds = true) →
        (main sgn si w paths).status = 0) := by
  have hfail : ∀ (i : Nat) (l : List PathBehaviour), dumpFiles sgn i (p :: l)
      = { stdout := [], stderr := ["open"], status := 1, calls := [Call.sysOpen i] } := by
    intro i l
    simp [dumpFiles, hp]
  have hmain : ∀ l : List PathBehaviour, main sgn si w (pre ++ p :: l)
      = { stdout := (pre.map fun q => (main sgn si w [q]).stdout).flatten,
          stderr := ["open"], status := 1,
          calls := (dumpFiles sgn 1 pre).calls ++ [Call.sysOpen (1 + pre.length)] } := by
    intro l
    rw [main_eq_dumpFiles sgn si w _ (by simp), dumpFiles_append sgn _ pre 1 hpre, hfail,
      dumps_alone sgn si w pre hpre]
    simp
  refine ⟨?_, ?_, ?_, ?_, ?_, ?_⟩
  · rw [hmain]; simp
  · rw [hmain]
  · rw [hmain]
  · intro j hj hmem
    rw [hmain] at hmem
    simp only [List.mem_append, List.mem_singleton, Call.sysOpen.injEq] at hmem
    rcases hmem with hmem | hmem
    · have := sysOpen_mem_calls sgn pre 1 j hmem
      omega
    · omega
  · rw [hmain, hmain]
  · intro paths hne hok
    rw [main_eq_dumpFiles sgn si w paths hne]
    exact (status_of_all_succeed sgn paths 1 hok).1

theorem C7_open_failure_stops_run_witness :
    (main true ReadOutcome.error 0
        ([⟨3, cleanReads [[65, 66, 10]], 0⟩] ++ ⟨-1, [], 0⟩ :: [⟨3, cleanReads [[67]], 0⟩])).status
        ≠ 0 ∧
      (main true ReadOutcome.error 0
        ([⟨3, cleanReads [[65, 66, 10]], 0⟩] ++ ⟨-1, [], 0⟩ :: [⟨3, cleanReads [[67]], 0⟩])).stdout
        = (([⟨3, cleanReads [[65, 66, 10]], 0⟩] : List PathBehaviour).map
            fun q => (main true ReadOutcome.error 0 [q]).stdout).flatten ∧
      (main true ReadOutcome.error 0
        ([⟨3, cleanReads [[65, 66, 10]], 0⟩] ++ ⟨-1, [], 0⟩ :: [⟨3, cleanReads [[67]], 0⟩])).stderr
        = ["open"] ∧
      (∀ j : Nat, ([⟨3, cleanReads [[65, 66, 10]], 0⟩] : List PathBehaviour).length + 1 < j →
        Call.sysOpen j ∉ (main true ReadOutcome.error 0
          ([⟨3, cleanReads [[65, 66, 10]], 0⟩] ++ ⟨-1, [], 0⟩
            :: [⟨3, cleanReads [[67]], 0⟩])).calls) ∧
      main true ReadOutcome.error 0
          ([⟨3, cleanReads [[65, 66, 10]], 0⟩] ++ ⟨-1, [], 0⟩ :: [⟨3, cleanReads [[67]], 0⟩])
        = main true ReadOutcome.error 0 ([⟨3, cleanReads [[65, 66, 10]], 0⟩] ++ [⟨-1, [], 0⟩]) ∧
      (∀ paths : List PathBehaviour, paths ≠ [] → (∀ q ∈ paths, q.succeeds = true) →
        (main true ReadOutcome.error 0 paths).status = 0) :=
  C7_open_failure_stops_run true ReadOutcome.error 0 [⟨3, cleanReads [[65, 66, 10]], 0⟩]
    [⟨3, cleanReads [[67]], 0⟩] ⟨-1, [], 0⟩ (by decide) (by decide)

/-- C9: for a non-empty list of paths that are all opened, read and closed
    without failure, the standard output of the run is the concatenation, in
    argument order, of the outputs of dumping each path alone; and the dump of a
    file whose first read delivers data starts with the offset `000000`,
    whatever precedes it. -/
theorem C9_dump_is_concatenation (sgn : Bool) (si : ReadOutcome) (w : Int)
    (paths : List PathBehaviour) (hne : paths ≠ []) (hok : ∀ q ∈ paths, q.succeeds = true) :
    (main sgn si w paths).stdout = (paths.map fun q => (main sgn si w [q]).stdout).flatten ∧
      (∀ q ∈ paths, ∀ (c : List Nat) (rest : List ReadOutcome),
        q.reads = ReadOutcome.bytes c :: rest → c ≠ [] →
          ∃ tail, (main sgn si w [q]).stdout = bytesOf "000000 " ++ tail) := by
  constructor
  · have := dumpFiles_append sgn [] paths 1 hok
    rw [List.append_nil] at this
    rw [main_eq_dumpFiles sgn si w paths hne, this, dumps_alone sgn si w paths hok]
    simp [dumpFiles]
  · intro q hq c rest hreads hc
    have h := hok q hq
    simp only [PathBehaviour.succeeds, Bool.and_eq_true, bne_iff_ne, ne_eq] at h
    have hpos : (0 : Int) < (c.length : Int) := by
      have : 0 < c.length := List.length_pos.mpr hc
      omega
    rw [main_single_stdout sgn si w q.openRet q.closeRet q.reads h.1.1, hreads]
    refine ⟨hexField sgn c ++ padField c.length ++ asciiField sgn c ++ [10]
      ++ ((readLoop sgn (wrapInt (0 + (c.length : Int))) rest).lines
        ++ [finalLine (readLoop sgn (wrapInt (0 + (c.length : Int))) rest).position]).flatten, ?_⟩
    simp only [fileLines, readLoop, ReadOutcome.cc, ReadOutcome.data, gt_iff_lt, hpos, if_true,
      List.cons_append, List.flatten_cons, contentLine,
      show offsetField 0 = bytesOf "000000 " by decide]
    simp [List.append_assoc]

theorem C9_dump_is_concatenation_witness :
    (main true ReadOutcome.error 0
        [⟨3, cleanReads [[65, 66, 10]], 0⟩, ⟨3, cleanReads [[67]], 0⟩]).stdout
        = (([⟨3, cleanReads [[65, 66, 10]], 0⟩, ⟨3, cleanReads [[67]], 0⟩] :
            List PathBehaviour).map
            fun q => (main true ReadOutcome.error 0 [q]).stdout).flatten ∧
      (∀ q ∈ ([⟨3, cleanReads [[65, 66, 10]], 0⟩, ⟨3, cleanReads [[67]], 0⟩] :
            List PathBehaviour),
        ∀ (c : List Nat) (rest : List ReadOutcome),
          q.reads = ReadOutcome.bytes c :: rest → c ≠ [] →
            ∃ tail, (main true ReadOutcome.error 0 [q]).stdout = bytesOf "000000 " ++ tail) :=
  C9_dump_is_concatenation true ReadOutcome.error 0
    [⟨3, cleanReads [[65, 66, 10]], 0⟩, ⟨3, cleanReads [[67]], 0⟩] (by decide) (by decide)

/-- C6 (amended): when, after the paths `pre` were dumped without failure, the
    reads of an opened file deliver the non-empty chunks `chunks` and the next
    read fails, the run ends with status 1 reporting `read`; standard output
    holds the dumps of `pre`, then the content lines of `chunks` followed by the
    final offset line carrying the number of bytes read so far, exactly as if
    the file had ended there; and no later path is opened. -/
theorem C6_read_error_after_offset_line (sgn : Bool) (si : ReadOutcome) (w fd cl : Int)
    (pre post : List PathBehaviour) (chunks : List (List Nat)) (more : List ReadOutcome)
    (hpre : ∀ q ∈ pre, q.succeeds = true) (hfd : fd ≠ -1) (hne : ∀ c ∈ chunks, c ≠ []) :
    (main sgn si w (pre ++ ⟨fd, chunks.map ReadOutcome.bytes ++ ReadOutcome.error :: more, cl⟩
        :: post)).status = 1 ∧
      (main sgn si w (pre ++ ⟨fd, chunks.map ReadOutcome.bytes ++ ReadOutcome.error :: more, cl⟩
        :: post)).stderr = ["read"] ∧
      (main sgn si w (pre ++ ⟨fd, chunks.map ReadOutcome.bytes ++ ReadOutcome.error :: more, cl⟩
        :: post)).stdout
        = (pre.map fun q => (main sgn si w [q]).stdout).flatten
          ++ (fileLines sgn (cleanReads chunks)).flatten ∧
      (fileLines sgn (cleanReads chunks)).length = chunks.length + 1 ∧
      (fileLines sgn (cleanReads chunks)).getLast?
        = some (printfHex 6 ((chunks.map List.length).sum % 4294967296) ++ [10]) ∧
      (∀ j : Nat, pre.length + 1 < j → Call.sysOpen j ∉
        (main sgn si w (pre ++
          ⟨fd, chunks.map ReadOutcome.bytes ++ ReadOutcome.error :: more, cl⟩ :: post)).calls) ∧
      main sgn si w (pre ++ ⟨fd, chunks.map ReadOutcome.bytes ++ ReadOutcome.error :: more, cl⟩
          :: post)
        = main sgn si w (pre ++
          [⟨fd, chunks.map ReadOutcome.bytes ++ ReadOutcome.error :: more, cl⟩]) := by
  have hfl : fileLines sgn (chunks.map ReadOutcome.bytes ++ ReadOutcome.error :: more)
      = fileLines sgn (cleanReads chunks) := by
    rw [cleanReads, fileLines_chunks_eof sgn chunks [] hne,
      fileLines_chunks_error sgn chunks more hne]
  have hcc : (readLoop sgn 0 (chunks.map ReadOutcome.bytes ++ ReadOutcome.error :: more)).cc
      = -1 := by
    have := readLoop_chunks sgn (ReadOutcome.error :: more) chunks 0 hne
    simp only [show wrapInt ((0 : Nat) : Int) = 0 from rfl] at this
    rw [this]
    simp [readLoop, ReadOutcome.cc]
  have hfail : ∀ (i : Nat) (l : List PathBehaviour),
      dumpFiles sgn i
        (⟨fd, chunks.map ReadOutcome.bytes ++ ReadOutcome.error :: more, cl⟩ :: l)
      = { stdout := (fileLines sgn (cleanReads chunks)).flatten, stderr := ["read"], status := 1,
          calls := Call.sysOpen i :: List.replicate
            (readLoop sgn 0 (chunks.map ReadOutcome.bytes ++ ReadOutcome.error :: more)).nreads
            (Call.sysRead fd BUF_SIZE) } := by
    intro i l
    simp [dumpFiles, hfd, hcc, hfl]
  have hmain : ∀ l : List PathBehaviour,
      main sgn si w (pre ++
        ⟨fd, chunks.map ReadOutcome.bytes ++ ReadOutcome.error :: more, cl⟩ :: l)
      = { stdout := (pre.map fun q => (main sgn si w [q]).stdout).flatten
            ++ (fileLines sgn (cleanReads chunks)).flatten,
          stderr := ["read"], status := 1,
          calls := (dumpFiles sgn 1 pre).calls ++ Call.sysOpen (1 + pre.length) ::
            List.replicate
              (readLoop sgn 0 (chunks.map ReadOutcome.bytes ++ ReadOutcome.error :: more)).nreads
              (Call.sysRead fd BUF_SIZE) } := by
    intro l
    rw [main_eq_dumpFiles sgn si w _ (by simp), dumpFiles_append sgn _ pre 1 hpre, hfail,
      dumps_alone sgn si w pre hpre]
  have hshape : fileLines sgn (cleanReads chunks) = contentLines sgn 0 chunks
      ++ [printfHex 6 ((chunks.map List.length).sum % 4294967296) ++ [10]] := by
    rw [cleanReads, fileLines_chunks_eof sgn chunks [] hne, finalLine_wrapInt]
  refine ⟨?_, ?_, ?_, ?_, ?_, ?_, ?_⟩
  · rw [hmain]
  · rw [hmain]
  · rw [hmain]
  · rw [hshape]; simp [length_contentLines]
  · rw [hshape]; simp
  · intro j hj hmem
    rw [hmain] at hmem
    simp only [List.mem_append, List.mem_cons, Call.sysOpen.injEq] at hmem
    rcases hmem with hmem | hmem | hmem
    · have := sysOpen_mem_calls sgn pre 1 j hmem
      omega
    · omega
    · have := List.eq_of_mem_replicate hmem
      cases this
  · rw [hmain, hmain]

theorem C6_read_error_after_offset_line_witness :
    (main true ReadOutcome.error 0 ([⟨3, cleanReads [[67]], 0⟩] ++
        ⟨4, [[65, 66]].map ReadOutcome.bytes ++ ReadOutcome.error :: [], 0⟩
        :: [⟨5, cleanReads [[68]], 0⟩])).status = 1 ∧
      (main true ReadOutcome.error 0 ([⟨3, cleanReads [[67]], 0⟩] ++
        ⟨4, [[65, 66]].map ReadOutcome.bytes ++ ReadOutcome.error :: [], 0⟩
        :: [⟨5, cleanReads [[68]], 0⟩])).stderr = ["read"] ∧
      (main true ReadOutcome.error 0 ([⟨3, cleanReads [[67]], 0⟩] ++
        ⟨4, [[65, 66]].map ReadOutcome.bytes ++ ReadOutcome.error :: [], 0⟩
        :: [⟨5, cleanReads [[68]], 0⟩])).stdout
        = (([⟨3, cleanReads [[67]], 0⟩] : List PathBehaviour).map
            fun q => (main true ReadOutcome.error 0 [q]).stdout).flatten
          ++ (fileLines true (cleanReads [[65, 66]])).flatten ∧
      (fileLines true (cleanReads [[65, 66]])).length = [[65, 66]].length + 1 ∧
      (fileLines true (cleanReads [[65, 66]])).getLast?
        = some (printfHex 6 (([[65, 66]].map List.length).sum % 4294967296) ++ [10]) ∧
      (∀ j : Nat, ([⟨3, cleanReads [[67]], 0⟩] : List PathBehaviour).length + 1 < j →
        Call.sysOpen j ∉
          (main true ReadOutcome.error 0 ([⟨3, cleanReads [[67]], 0⟩] ++
            ⟨4, [[65, 66]].map ReadOutcome.bytes ++ ReadOutcome.error :: [], 0⟩
            :: [⟨5, cleanReads [[68]], 0⟩])).calls) ∧
      main true ReadOutcome.error 0 ([⟨3, cleanReads [[67]], 0⟩] ++
          ⟨4, [[65, 66]].map ReadOutcome.bytes ++ ReadOutcome.error :: [], 0⟩
          :: [⟨5, cleanReads [[68]], 0⟩])
        = main true ReadOutcome.error 0 ([⟨3, cleanReads [[67]], 0⟩] ++
          [⟨4, [[65, 66]].map ReadOutcome.bytes ++ ReadOutcome.error :: [], 0⟩]) :=
  C6_read_error_after_offset_line true ReadOutcome.error 0 4 0 [⟨3, cleanReads [[67]], 0⟩]
    [⟨5, cleanReads [[68]], 0⟩] [[65, 66]] [] (by decide) (by decide) (by decide)

/-- C6, counterexample: when the read after the one-byte chunk `41` fails,
    standard output holds the content line and then the final offset line
    `000001`, not the content line alone; the run ends with status 1. -/
theorem C6_counterexample_offset_line_printed :
    (readLoop true 0 [ReadOutcome.bytes [65], ReadOutcome.error]).cc = -1 ∧
      (main true ReadOutcome.error 0 [⟨3, [ReadOutcome.bytes [65], ReadOutcome.error], 0⟩]).stdout
        = (readLoop true 0 [ReadOutcome.bytes [65], ReadOutcome.error]).lines.flatten
          ++ bytesOf "000001\n" ∧
      (main true ReadOutcome.error 0 [⟨3, [ReadOutcome.bytes [65], ReadOutcome.error], 0⟩]).stdout
        ≠ (readLoop true 0 [ReadOutcome.bytes [65], ReadOutcome.error]).lines.flatten ∧
      (main true ReadOutcome.error 0 [⟨3, [ReadOutcome.bytes [65], ReadOutcome.error], 0⟩]).status
        = 1 := by
  decide

/-- C8: with no path argument the program makes one `read` of 16 bytes on
    standard input; if it fails nothing is written and the status is 1;
    otherwise one `write` of exactly the bytes read follows, and when that
    `write` returns their number standard output holds exactly these bytes and
    the status is 0, while any other return value gives a non-zero status. -/
theorem C8_pass_through (sgn : Bool) (w : Int) (chunk : List Nat) :
    main sgn ReadOutcome.error w []
        = { stdout := [], stderr := ["read"], status := 1, calls := [Call.sysRead 0 16] } ∧
      (main sgn (ReadOutcome.bytes chunk) w []).calls
        = [Call.sysRead 0 16, Call.sysWrite 1 chunk] ∧
      main sgn (ReadOutcome.bytes chunk) (chunk.length : Int) []
        = { stdout := chunk, stderr := [], status := 0,
            calls := [Call.sysRead 0 16, Call.sysWrite 1 chunk] } ∧
      (w ≠ (chunk.length : Int) → (main sgn (ReadOutcome.bytes chunk) w []).status ≠ 0) := by
  have hcc : ¬ ((chunk.length : Int) = -1) := by omega
  refine ⟨by rfl, ?_, ?_, ?_⟩
  · simp only [main, passThrough, ReadOutcome.cc, ReadOutcome.data, beq_iff_eq, hcc, if_false,
      List.length_nil, Nat.zero_add, le_refl, if_true]
    split <;> rfl
  · simp [main, passThrough, ReadOutcome.cc, ReadOutcome.data, hcc, STDIN_FILENO,
      STDOUT_FILENO, BUF_SIZE]
  · intro hw
    simp [main, passThrough, ReadOutcome.cc, ReadOutcome.data, hcc, hw]

theorem C8_pass_through_witness :
    main true ReadOutcome.error 5 []
        = { stdout := [], stderr := ["read"], status := 1, calls := [Call.sysRead 0 16] } ∧
      (main true (ReadOutcome.bytes [104, 105, 10]) 5 []).calls
        = [Call.sysRead 0 16, Call.sysWrite 1 [104, 105, 10]] ∧
      main true (ReadOutcome.bytes [104, 105, 10]) (([104, 105, 10] : List Nat).length : Int) []
        = { stdout := [104, 105, 10], stderr := [], status := 0,
            calls := [Call.sysRead 0 16, Call.sysWrite 1 [104, 105, 10]] } ∧
      ((5 : Int) ≠ (([104, 105, 10] : List Nat).length : Int) →
        (main true (ReadOutcome.bytes [104, 105, 10]) 5 []).status ≠ 0) :=
  C8_pass_through true 5 [104, 105, 10]

end Loadtest
